import Mathlib

/-!
Shallow embedding of the core of yt_uploader.py (YouTube Video Uploader) and
verification of the frozen claims about it.

Python strings are modelled as lists of characters (a Python str is a sequence
of unicode code points).  Naive Python datetimes are modelled as integer minute
counts; adding timedelta(days=1) to a naive datetime adds exactly one calendar
day while keeping the wall-clock time of day, which on the minute model is
addition of 1440.  The float progress fraction returned by status.progress()
is modelled as a rational number.
-/

namespace YtUploader

/-- Python str, as a sequence of characters. -/
abbrev PyStr := List Char

/-- Python str.strip(): removes leading and trailing whitespace. -/
def pyStrip (s : PyStr) : PyStr :=
  ((s.dropWhile Char.isWhitespace).reverse.dropWhile Char.isWhitespace).reverse

/-- Python s.startswith(p). -/
def pyStartsWith (s p : PyStr) : Bool :=
  s.take p.length == p

/-- Left-to-right replacement scan with a step budget.  Each step consumes at
least one character, so a budget of the length of the string runs the scan to
completion. -/
def pyReplaceAux (pat repl : PyStr) : Nat → PyStr → PyStr
  | 0, s => s
  | _ + 1, [] => []
  | fuel + 1, c :: rest =>
    if pat ≠ [] ∧ pat.isPrefixOf (c :: rest) then
      repl ++ pyReplaceAux pat repl fuel ((c :: rest).drop pat.length)
    else
      c :: pyReplaceAux pat repl fuel rest

/-- Python s.replace(pat, repl): replaces every non-overlapping occurrence of
pat in s, scanning left to right. -/
def pyReplace (pat repl s : PyStr) : PyStr :=
  pyReplaceAux pat repl s.length s

/-- Python truthiness of an optional string: None and the empty string are
falsy. -/
def pyTruthyOpt (o : Option PyStr) : Bool :=
  match o with
  | none => false
  | some s => s != []

/-- Timestamp normalization used when comparing publish times in
_find_partial_upload_video_id: s.replace(".000Z", "Z"). -/
def normalizePublishAt (s : PyStr) : PyStr :=
  pyReplace ".000Z".data "Z".data s

/-!
## HistoryStore (lines 80-122 of yt_uploader.py)

A history entry is a JSON object; the uploader only ever stores the fields
below, each of which may be absent (modelled as Option).  load/save of the
backing file are modelled by passing the stored list explicitly; every
add/update is a full read-modify-write of that list.
-/

/-- One entry of upload_history.json.  Every field the program ever writes;
absent fields are none. -/
structure HistoryEntry where
  title : Option PyStr := none
  description : Option PyStr := none
  tags : Option (List PyStr) := none
  category : Option PyStr := none
  privacy : Option PyStr := none
  filename : Option PyStr := none
  status : Option PyStr := none
  progress : Option ℚ := none
  video_url : Option PyStr := none
  video_id : Option PyStr := none
  note : Option PyStr := none
  error : Option PyStr := none
  uploaded_at : Option PyStr := none
deriving DecidableEq, Repr

/-- The empty JSON object. -/
def HistoryEntry.empty : HistoryEntry := {}

/-- First-some choice, the per-field semantics of dict.update (the update
value wins when present). -/
def orO {α : Type} (a b : Option α) : Option α :=
  match a with
  | some x => some x
  | none => b

/-- Python entry.update(updates): field-wise merge, updates win. -/
def mergeEntry (e u : HistoryEntry) : HistoryEntry where
  title := orO u.title e.title
  description := orO u.description e.description
  tags := orO u.tags e.tags
  category := orO u.category e.category
  privacy := orO u.privacy e.privacy
  filename := orO u.filename e.filename
  status := orO u.status e.status
  progress := orO u.progress e.progress
  video_url := orO u.video_url e.video_url
  video_id := orO u.video_id e.video_id
  note := orO u.note e.note
  error := orO u.error e.error
  uploaded_at := orO u.uploaded_at e.uploaded_at

/-- Lines 103-105: add uploaded_at = now if not present. -/
def stampEntry (now : PyStr) (entry : HistoryEntry) : HistoryEntry :=
  match entry.uploaded_at with
  | none => { entry with uploaded_at := some now }
  | some _ => entry

/-- add_to_history (lines 100-111): stamp, prepend, truncate to 100, save,
return the uploaded_at key.  The stored log is threaded explicitly. -/
def add_to_history (now : PyStr) (entry : HistoryEntry)
    (history : List HistoryEntry) : PyStr × List HistoryEntry :=
  let e := stampEntry now entry
  (e.uploaded_at.getD now, (e :: history).take 100)

/-- update_history_entry (lines 114-122): walk the log, merge the updates
into the first entry whose uploaded_at equals the key and save; return False
leaving the log untouched when no entry matches. -/
def update_history_entry (key : PyStr) (updates : HistoryEntry) :
    List HistoryEntry → Bool × List HistoryEntry
  | [] => (false, [])
  | e :: rest =>
    if e.uploaded_at = some key then
      (true, mergeEntry e updates :: rest)
    else
      let r := update_history_entry key updates rest
      (r.1, e :: r.2)

/-- Sequential appends, each one a full read-modify-write, as performed by
consecutive uploads. -/
def append_many (pairs : List (PyStr × HistoryEntry))
    (history : List HistoryEntry) : List HistoryEntry :=
  pairs.foldl (fun acc p => (add_to_history p.1 p.2 acc).2) history

/-!
## _find_partial_upload_video_id (lines 1375-1425)

One item of the search().list response, together with the publishAt that the
follow-up videos().list detail call returns for it.  The detail call is made
against the id the search itself returned, so the remote object exists and the
detail lookup finds it; a video with no publishAt yields the empty string
(the code reads status.get with default empty). -/
structure SearchItem where
  title : PyStr
  description : PyStr
  videoId : Option PyStr
  storedPublishAt : PyStr
deriving DecidableEq, Repr

/-- The candidate loop of _find_partial_upload_video_id: skip on title
mismatch; skip when the request description is non-empty and the stored
description does not start with its first 100 characters; when both the
expected publish time and the video id are truthy, skip unless the publish
times agree after .000Z normalization; otherwise return the id (possibly
None, which ends the search). -/
def find_partial_upload_video_id (title description : PyStr)
    (publish_at : Option PyStr) : List SearchItem → Option PyStr
  | [] => none
  | item :: rest =>
    if item.title ≠ title then
      find_partial_upload_video_id title description publish_at rest
    else if description ≠ [] ∧
        ¬ pyStartsWith item.description (description.take 100) then
      find_partial_upload_video_id title description publish_at rest
    else if pyTruthyOpt publish_at ∧ pyTruthyOpt item.videoId then
      if normalizePublishAt (publish_at.getD []) ≠
          normalizePublishAt item.storedPublishAt then
        find_partial_upload_video_id title description publish_at rest
      else
        item.videoId
    else
      item.videoId

/-!
## Next-day slot calculation (lines 1100-1151)

A naive datetime is an Int count of minutes.  Each fetched scheduled video
carries its UTC publish time and the local time derived from it by adding the
single utc_offset_seconds computed once per calculation (line 1118). -/

/-- Minutes in one day; timedelta(days=1) on the minute model. -/
def minutesPerDay : Int := 1440

/-- One scheduled video as built at lines 1120-1125 (publishAtStr omitted:
it is only displayed). -/
structure ScheduledVideo where
  title : PyStr
  publishAt : Int
  publishAtLocal : Int
deriving DecidableEq, Repr

/-- Line 1118: local time = UTC time + the common offset. -/
def mkScheduledVideos (offset : Int) (raw : List (PyStr × Int)) :
    List ScheduledVideo :=
  raw.map (fun p => ⟨p.1, p.2, p.2 + offset⟩)

/-- Comparison key of scheduled_videos.sort(key=lambda x: x[publishAt]). -/
def leKey (a b : ScheduledVideo) : Bool :=
  a.publishAt ≤ b.publishAt

/-- Insertion of one element into an ascending run (stable: an element is
placed before later elements with an equal key). -/
def insertByKey (a : ScheduledVideo) : List ScheduledVideo → List ScheduledVideo
  | [] => [a]
  | b :: l => if leKey a b then a :: b :: l else b :: insertByKey a l

/-- The stable ascending sort of line 1137. -/
def sortByKey : List ScheduledVideo → List ScheduledVideo
  | [] => []
  | a :: l => insertByKey a (sortByKey l)

/-- Lines 1127-1141 from the point where the fetched list is in hand: empty
list takes the fallback path (not modelled here, returns none); otherwise
sort ascending by UTC publish time, take the last (latest) element and
return its local time plus one day. -/
def calculate_next_day_slot (offset : Int) (raw : List (PyStr × Int)) :
    Option Int :=
  let vids := mkScheduledVideos offset raw
  if vids.isEmpty then none
  else
    (sortByKey vids).getLast?.map (fun latest => latest.publishAtLocal + minutesPerDay)

/-!
## Input validation and upload start (lines 1290-1335 and 1427-1493)
-/

/-- The form contents read by _validate_inputs and _upload.  scheduledDt is
the result of _get_scheduled_datetime: none when the date fields do not
parse.  publicConfirmed is the answer to the are-you-sure dialog for public
uploads.  suffixSupported only controls a warning, never a rejection. -/
structure UploadForm where
  videoPath : PyStr
  pathExists : Bool
  suffixSupported : Bool
  title : PyStr
  description : PyStr
  tags : List PyStr
  category : PyStr
  privacy : PyStr
  scheduledDt : Option Int
  publicConfirmed : Bool
deriving DecidableEq, Repr

/-- _validate_inputs (lines 1290-1335), with now the value of
datetime.now() at the scheduled-time check. -/
def validate_inputs (now : Int) (f : UploadForm) : Bool :=
  let path := pyStrip f.videoPath
  let title := pyStrip f.title
  if path = [] then false
  else if ¬ f.pathExists then false
  else if title = [] then false
  else if 100 < title.length then false
  else if f.privacy = "scheduled".data then
    match f.scheduledDt with
    | none => false
    | some dt => if dt ≤ now then false else true
  else if f.privacy = "public".data then f.publicConfirmed
  else true

/-- The HistoryEntry written at lines 1484-1493 when an upload starts. -/
def initialHistoryEntry (f : UploadForm) : HistoryEntry :=
  { title := some (pyStrip f.title)
    description := some (pyStrip f.description)
    tags := some f.tags
    category := some f.category
    privacy := some f.privacy
    filename := some (pyStrip f.videoPath)
    status := some "uploading".data
    progress := some 0 }

/-- The head of _upload (lines 1427-1493): when validation fails the method
returns before any history entry is written and before the worker thread is
started; otherwise the uploading entry is created.  none therefore means no
HistoryEntry and no session. -/
def upload_attempt (now : Int) (f : UploadForm) : Option HistoryEntry :=
  if validate_inputs now f then some (initialHistoryEntry f) else none

/-!
## Progress polling (lines 314-333, 1495-1550)

The worker thread stores each chunk status as upload_state.progress; the
control context polls every 100ms.  One poll that reads a reported value r is
modelled by check_upload_progress_step: when r is positive it relays r to the
progress window unchanged and merges progress = r into the history entry
(lines 1542-1545); otherwise nothing happens.  A run is a list of reported
values, one per poll. -/

/-- The parts of UploadProgressWindow that carry upload state (lines 250-252);
labels, speed and ETA text are display only. -/
structure ProgressWindow where
  cancelled : Bool
  currentProgress : ℚ
deriving DecidableEq, Repr

/-- The window as constructed (lines 250-252). -/
def ProgressWindow.init : ProgressWindow :=
  { cancelled := false, currentProgress := 0 }

/-- update_progress (lines 322-333): stores the given value as is. -/
def update_progress (progress : ℚ) (w : ProgressWindow) : ProgressWindow :=
  { w with currentProgress := progress }

/-- get_progress (lines 318-320). -/
def get_progress (w : ProgressWindow) : ℚ :=
  w.currentProgress

/-- Shared state touched by one poll: the progress window and the stored
history log. -/
structure PollState where
  window : ProgressWindow
  history : List HistoryEntry
deriving DecidableEq, Repr

/-- The progress part of check_upload (lines 1540-1545) for one poll that
reads reported from upload_state.progress. -/
def check_upload_progress_step (key : PyStr) (reported : ℚ)
    (s : PollState) : PollState :=
  if 0 < reported then
    { window := update_progress reported s.window
      history := (update_history_entry key
        { HistoryEntry.empty with progress := some reported } s.history).2 }
  else s

/-- The progress values the polling side observes over a run: the window
value after each poll (the window starts at 0). -/
def observedProgress (key : PyStr) (reports : List ℚ) (s₀ : PollState) :
    List ℚ :=
  (List.scanl (fun s r => check_upload_progress_step key r s) s₀ reports).map
    (fun s => get_progress s.window)

/-!
## Cancellation handling (lines 1556-1592)
-/

/-- Everything the cancellation branch of check_upload reads: the video id
the worker extracted from the response (if any), the final value of
upload_state.progress, the request metadata and search items driving the
best-effort search, and whether videos().delete raises (some message) or
succeeds (none). -/
structure CancelCtx where
  stateVideoId : Option PyStr
  stateProgress : ℚ
  title : PyStr
  description : PyStr
  publishAt : Option PyStr
  searchItems : List SearchItem
  deleteFails : Option PyStr
deriving DecidableEq, Repr

/-- What the cancellation branch reports to the caller besides the history
write: the resolved id, whether a delete was attempted, and the dialog
text shown. -/
structure CancelReport where
  resolvedId : Option PyStr
  deleteAttempted : Bool
  message : PyStr
deriving DecidableEq, Repr

/-- History update written at lines 1567-1571 (delete succeeded). -/
def cancelDeletedUpdate (p : ℚ) : HistoryEntry :=
  { HistoryEntry.empty with
      status := some "cancelled".data
      progress := some p
      note := some "Video deleted from YouTube".data }

/-- History update written at lines 1574-1579 (delete raised). -/
def cancelDeleteFailedUpdate (p : ℚ) (v err : PyStr) : HistoryEntry :=
  { HistoryEntry.empty with
      status := some "cancelled".data
      progress := some p
      video_id := some v
      note := some ("Failed to delete video: ".data ++ err) }

/-- History update written at lines 1586-1589 (nothing to delete). -/
def cancelNoVideoUpdate (p : ℚ) : HistoryEntry :=
  { HistoryEntry.empty with
      status := some "cancelled".data
      progress := some p }

/-- Lines 1556-1592: resolve the id (state first, best-effort search second);
with an id, attempt the delete and record cancelled with either the success
note or the failed-delete warning note and the id; with no id, record
cancelled and tell the caller no matching video was found (no delete
attempted). -/
def handle_cancelled (key : PyStr) (ctx : CancelCtx)
    (history : List HistoryEntry) : List HistoryEntry × CancelReport :=
  let vid := match ctx.stateVideoId with
    | some v => some v
    | none =>
      find_partial_upload_video_id ctx.title ctx.description ctx.publishAt
        ctx.searchItems
  match vid with
  | some v =>
    match ctx.deleteFails with
    | none =>
      ((update_history_entry key (cancelDeletedUpdate ctx.stateProgress)
          history).2,
        ⟨some v, true,
          "Upload was cancelled and the video was deleted from YouTube.".data⟩)
    | some err =>
      ((update_history_entry key
          (cancelDeleteFailedUpdate ctx.stateProgress v err) history).2,
        ⟨some v, true,
          "Upload was cancelled but failed to delete video from YouTube.".data⟩)
  | none =>
    ((update_history_entry key (cancelNoVideoUpdate ctx.stateProgress)
        history).2,
      ⟨none, false,
        "Upload was cancelled. No matching video was found on YouTube to delete.".data⟩)

/-!
## Helper lemmas: history store
-/

/-- When no stored entry carries the key, the walk returns False and rebuilds
the log unchanged. -/
theorem update_history_entry_no_match (key : PyStr) (u : HistoryEntry) :
    ∀ (h : List HistoryEntry), (∀ e ∈ h, e.uploaded_at ≠ some key) →
      update_history_entry key u h = (false, h) := by
  intro h
  induction h with
  | nil => intro _; rfl
  | cons e rest ih =>
    intro hall
    have he : e.uploaded_at ≠ some key := hall e (by simp)
    have hrest : ∀ x ∈ rest, x.uploaded_at ≠ some key := by
      intro x hx
      exact hall x (by simp [hx])
    simp only [update_history_entry, if_neg he, ih hrest]

/-- The walk merges the updates into the first entry that carries the key and
leaves every other entry alone. -/
theorem update_history_entry_first_match (key : PyStr) (u : HistoryEntry)
    (pre : List HistoryEntry) (e : HistoryEntry) (post : List HistoryEntry)
    (hpre : ∀ x ∈ pre, x.uploaded_at ≠ some key)
    (he : e.uploaded_at = some key) :
    update_history_entry key u (pre ++ e :: post) =
      (true, pre ++ mergeEntry e u :: post) := by
  induction pre with
  | nil => simp [update_history_entry, he]
  | cons p ps ih =>
    have hp : p.uploaded_at ≠ some key := hpre p (by simp)
    have hps : ∀ x ∈ ps, x.uploaded_at ≠ some key := by
      intro x hx
      exact hpre x (by simp [hx])
    simp only [List.cons_append, update_history_entry, if_neg hp]
    rw [show ps.append (e :: post) = ps ++ e :: post from rfl, ih hps]

/-- Merging a progress value an entry already holds reproduces the entry. -/
theorem mergeEntry_progress_self (e : HistoryEntry) (r : ℚ)
    (h : e.progress = some r) :
    mergeEntry e { HistoryEntry.empty with progress := some r } = e := by
  cases e
  simp_all [mergeEntry, HistoryEntry.empty, orO]

/-- One take absorbs an inner take behind an append. -/
theorem take_append_take {α : Type} (A X : List α) (n : ℕ) :
    (A ++ X.take n).take n = (A ++ X).take n := by
  rw [List.take_append_eq_append_take, List.take_append_eq_append_take,
    List.take_take, min_eq_left (Nat.sub_le n A.length)]

/-- Closed form of a run of sequential appends starting from a short log:
the stamped entries in reverse append order, in front of the initial log,
truncated to 100. -/
theorem append_many_eq (pairs : List (PyStr × HistoryEntry)) :
    ∀ (h₀ : List HistoryEntry), h₀.length ≤ 100 →
      append_many pairs h₀ =
        (((pairs.map (fun p => stampEntry p.1 p.2)).reverse ++ h₀).take 100) := by
  induction pairs with
  | nil =>
    intro h₀ hlen
    simpa [append_many] using (List.take_of_length_le hlen).symm
  | cons p ps ih =>
    intro h₀ hlen
    have hstep : append_many (p :: ps) h₀ =
        append_many ps ((stampEntry p.1 p.2 :: h₀).take 100) := by
      simp [append_many, add_to_history]
    have hlen' : ((stampEntry p.1 p.2 :: h₀).take 100).length ≤ 100 := by
      simp [List.length_take]
    rw [hstep, ih _ hlen', take_append_take,
      List.map_cons, List.reverse_cons, List.append_assoc]
    simp

/-!
## Helper lemmas: the next-day slot sort
-/

/-- The relation the sort establishes: ascending UTC publish times. -/
def RK (a b : ScheduledVideo) : Prop := a.publishAt ≤ b.publishAt

theorem mem_insertByKey (a x : ScheduledVideo) :
    ∀ (l : List ScheduledVideo), x ∈ insertByKey a l ↔ x = a ∨ x ∈ l := by
  intro l
  induction l with
  | nil => simp [insertByKey]
  | cons b t ih =>
    by_cases hab : leKey a b
    · simp [insertByKey, hab]
    · simp only [insertByKey, if_neg hab, List.mem_cons, ih]
      tauto

theorem insertByKey_ne_nil (a : ScheduledVideo) (l : List ScheduledVideo) :
    insertByKey a l ≠ [] := by
  cases l with
  | nil => simp [insertByKey]
  | cons b t =>
    by_cases hab : leKey a b <;> simp [insertByKey, hab]

theorem perm_insertByKey (a : ScheduledVideo) :
    ∀ (l : List ScheduledVideo), (insertByKey a l).Perm (a :: l) := by
  intro l
  induction l with
  | nil => simp [insertByKey]
  | cons b t ih =>
    by_cases hab : leKey a b
    · simp [insertByKey, hab]
    · simp only [insertByKey, if_neg hab]
      exact (List.Perm.cons b ih).trans (List.Perm.swap a b t)

theorem perm_sortByKey :
    ∀ (l : List ScheduledVideo), (sortByKey l).Perm l := by
  intro l
  induction l with
  | nil => simp [sortByKey]
  | cons a t ih =>
    exact (perm_insertByKey a (sortByKey t)).trans (List.Perm.cons a ih)

theorem pairwise_insertByKey (a : ScheduledVideo) :
    ∀ (l : List ScheduledVideo), l.Pairwise RK →
      (insertByKey a l).Pairwise RK := by
  intro l
  induction l with
  | nil => simp [insertByKey, RK]
  | cons b t ih =>
    intro hp
    rcases List.pairwise_cons.mp hp with ⟨hb, ht⟩
    by_cases hab : leKey a b
    · have hale : a.publishAt ≤ b.publishAt := by
        simpa [leKey] using hab
      simp only [insertByKey, if_pos hab]
      refine List.pairwise_cons.mpr ⟨?_, hp⟩
      intro x hx
      rcases List.mem_cons.mp hx with rfl | hxt
      · exact hale
      · exact le_trans hale (hb x hxt)
    · have hble : b.publishAt ≤ a.publishAt := by
        have : ¬ a.publishAt ≤ b.publishAt := by
          simpa [leKey] using hab
        omega
      simp only [insertByKey, if_neg hab]
      refine List.pairwise_cons.mpr ⟨?_, ih ht⟩
      intro x hx
      rcases (mem_insertByKey a x t).mp hx with rfl | hxt
      · exact hble
      · exact hb x hxt

theorem pairwise_sortByKey :
    ∀ (l : List ScheduledVideo), (sortByKey l).Pairwise RK := by
  intro l
  induction l with
  | nil => simp [sortByKey]
  | cons a t ih => exact pairwise_insertByKey a (sortByKey t) ih

/-- In an ascending run the last element bounds every element. -/
theorem key_le_getLast :
    ∀ (l : List ScheduledVideo) (hne : l ≠ []), l.Pairwise RK →
      ∀ x ∈ l, x.publishAt ≤ (l.getLast hne).publishAt := by
  intro l
  induction l with
  | nil => intro hne; exact absurd rfl hne
  | cons a t ih =>
    intro _ hp x hx
    rcases List.pairwise_cons.mp hp with ⟨ha, ht⟩
    cases t with
    | nil =>
      rcases List.mem_singleton.mp hx with rfl
      simp [List.getLast]
    | cons b t' =>
      have hne' : b :: t' ≠ [] := by simp
      rw [List.getLast_cons hne']
      rcases List.mem_cons.mp hx with rfl | hxt
      · exact ha _ (List.getLast_mem hne')
      · exact ih hne' ht x hxt

/-- The slot calculation on a non-empty fetch returns the local time of a
maximal-UTC item plus one day. -/
theorem calculate_next_day_slot_max (offset : Int) (raw : List (PyStr × Int))
    (hne : raw ≠ []) :
    ∃ best ∈ raw, (∀ it ∈ raw, it.2 ≤ best.2) ∧
      calculate_next_day_slot offset raw =
        some (best.2 + offset + minutesPerDay) := by
  have hvne : mkScheduledVideos offset raw ≠ [] := by
    simpa [mkScheduledVideos] using hne
  have hperm := perm_sortByKey (mkScheduledVideos offset raw)
  have hsne : sortByKey (mkScheduledVideos offset raw) ≠ [] := by
    intro h
    have hlen := hperm.length_eq
    rw [h] at hlen
    exact hvne (List.length_eq_zero.mp hlen.symm)
  set s := sortByKey (mkScheduledVideos offset raw) with hs
  have hlast : s.getLast? = some (s.getLast hsne) :=
    List.getLast?_eq_getLast s hsne
  have hmem : s.getLast hsne ∈ mkScheduledVideos offset raw :=
    hperm.mem_iff.mp (List.getLast_mem hsne)
  rcases List.mem_map.mp hmem with ⟨p, hp, hpe⟩
  refine ⟨p, hp, ?_, ?_⟩
  · intro it hit
    have hitv : (⟨it.1, it.2, it.2 + offset⟩ : ScheduledVideo) ∈
        mkScheduledVideos offset raw := List.mem_map.mpr ⟨it, hit, rfl⟩
    have hits : (⟨it.1, it.2, it.2 + offset⟩ : ScheduledVideo) ∈ s :=
      hperm.symm.subset hitv
    have := key_le_getLast s hsne (pairwise_sortByKey _) _ hits
    have hpk : (s.getLast hsne).publishAt = p.2 := by rw [← hpe]
    simpa [hpk] using this
  · have hcalc : calculate_next_day_slot offset raw =
        s.getLast?.map (fun latest => latest.publishAtLocal + minutesPerDay) := by
      simp only [calculate_next_day_slot, hs]
      rw [if_neg (by simpa [List.isEmpty_iff] using hvne)]
    rw [hcalc, hlast]
    have hloc : (s.getLast hsne).publishAtLocal = p.2 + offset := by rw [← hpe]
    simp [hloc]

/-!
## Helper lemmas: the polling loop
-/

/-- The window evolution of one poll, on the bare progress value. -/
def stepQ (w r : ℚ) : ℚ := if 0 < r then r else w

theorem observedProgress_eq_scanl (key : PyStr) :
    ∀ (reports : List ℚ) (s₀ : PollState),
      observedProgress key reports s₀ =
        List.scanl stepQ s₀.window.currentProgress reports := by
  intro reports
  induction reports with
  | nil => intro s₀; rfl
  | cons r rs ih =>
    intro s₀
    have hwin : (check_upload_progress_step key r s₀).window.currentProgress =
        stepQ s₀.window.currentProgress r := by
      by_cases hr : 0 < r
      · simp [check_upload_progress_step, update_progress, stepQ, hr]
      · simp [check_upload_progress_step, stepQ, hr]
    have hrec := ih (check_upload_progress_step key r s₀)
    simp only [observedProgress] at hrec ⊢
    rw [List.scanl_cons, List.scanl_cons, List.singleton_append,
      List.singleton_append, List.map_cons, hrec, hwin]
    rfl

theorem chain_scanl_stepQ :
    ∀ (reports : List ℚ) (w₀ : ℚ), reports.Pairwise (· ≤ ·) →
      (∀ r ∈ reports, 0 < r → w₀ ≤ r) →
      List.Chain' (· ≤ ·) (List.scanl stepQ w₀ reports) := by
  intro reports
  induction reports with
  | nil => intro w₀ _ _; simp
  | cons r rs ih =>
    intro w₀ hmono hbound
    rcases List.pairwise_cons.mp hmono with ⟨hr, hrs⟩
    rw [List.scanl_cons, List.singleton_append]
    have hbound' : ∀ x ∈ rs, 0 < x → stepQ w₀ r ≤ x := by
      intro x hx hxpos
      by_cases hrp : 0 < r
      · simpa [stepQ, hrp] using hr x hx
      · simpa [stepQ, hrp] using hbound x (by simp [hx]) hxpos
    have htail := ih (stepQ w₀ r) hrs hbound'
    refine List.chain'_cons'.mpr ⟨?_, htail⟩
    intro y hy
    have hhead : (List.scanl stepQ (stepQ w₀ r) rs).head? = some (stepQ w₀ r) := by
      cases rs <;> simp [List.scanl]
    rw [hhead] at hy
    rcases Option.some_inj.mp hy with rfl
    by_cases hrp : 0 < r
    · simpa [stepQ, hrp] using hbound r (by simp) hrp
    · simp [stepQ, hrp]

/-!
## Claim theorems
-/

/-- C5: each append assigns a creation timestamp to the entry if absent,
prepends it to the stored log, truncates the log to the most recent 100
entries, persists, and returns the key; consequently appending 105 entries in
sequence leaves exactly 100 stored entries, the 5 oldest evicted, with
most-recent-first order preserved. -/
theorem add_to_history_spec (now : PyStr) (e : HistoryEntry)
    (h : List HistoryEntry) (pairs : List (PyStr × HistoryEntry))
    (hlen : pairs.length = 105) :
    (add_to_history now e h).2 = (stampEntry now e :: h).take 100
  ∧ (stampEntry now e).uploaded_at = some (add_to_history now e h).1
  ∧ (e.uploaded_at = none →
      stampEntry now e = { e with uploaded_at := some now }
      ∧ (add_to_history now e h).1 = now)
  ∧ (∀ k, e.uploaded_at = some k → (add_to_history now e h).1 = k)
  ∧ append_many pairs [] =
      ((pairs.drop 5).map (fun p => stampEntry p.1 p.2)).reverse
  ∧ (append_many pairs []).length = 100 := by
  have hmain : append_many pairs [] =
      ((pairs.map (fun p => stampEntry p.1 p.2)).reverse).take 100 := by
    simpa using append_many_eq pairs [] (by simp)
  have hdrop : ((pairs.map (fun p => stampEntry p.1 p.2)).reverse).take 100 =
      ((pairs.drop 5).map (fun p => stampEntry p.1 p.2)).reverse := by
    rw [List.take_reverse, List.map_drop]
    congr 1
    simp [hlen]
  refine ⟨rfl, ?_, ?_, ?_, ?_, ?_⟩
  · cases he : e.uploaded_at <;> simp [stampEntry, add_to_history, he]
  · intro he
    simp [stampEntry, add_to_history, he]
  · intro k hk
    simp [stampEntry, add_to_history, hk]
  · rw [hmain, hdrop]
  · rw [hmain]
    simp [List.length_take, hlen]

/-- Concrete inputs for the C5 witness. -/
def sampleKey : PyStr := "2025-01-01T00:00:00".data

/-- 105 appends of a fresh entry. -/
def samplePairs : List (PyStr × HistoryEntry) :=
  List.replicate 105 (sampleKey, HistoryEntry.empty)

/-- Witness for C5 at concrete inputs. -/
theorem add_to_history_spec_witness :
    samplePairs.length = 105
  ∧ ((add_to_history sampleKey HistoryEntry.empty []).2 =
        (stampEntry sampleKey HistoryEntry.empty :: []).take 100
    ∧ (stampEntry sampleKey HistoryEntry.empty).uploaded_at =
        some (add_to_history sampleKey HistoryEntry.empty []).1
    ∧ (HistoryEntry.empty.uploaded_at = none →
        stampEntry sampleKey HistoryEntry.empty =
          { HistoryEntry.empty with uploaded_at := some sampleKey }
        ∧ (add_to_history sampleKey HistoryEntry.empty []).1 = sampleKey)
    ∧ (∀ k, HistoryEntry.empty.uploaded_at = some k →
        (add_to_history sampleKey HistoryEntry.empty []).1 = k)
    ∧ append_many samplePairs [] =
        ((samplePairs.drop 5).map (fun p => stampEntry p.1 p.2)).reverse
    ∧ (append_many samplePairs []).length = 100) :=
  ⟨by simp [samplePairs],
    add_to_history_spec sampleKey HistoryEntry.empty [] samplePairs
      (by simp [samplePairs])⟩

/-- C6: update with a timestamp key matching no stored entry returns false
and leaves the stored log unchanged; with a matching entry the fields are
merged into the first entry whose key equals the given key and the log is
persisted, returning true. -/
theorem update_history_entry_spec (key : PyStr) (u : HistoryEntry)
    (h₂ : List HistoryEntry) (hnone : ∀ x ∈ h₂, x.uploaded_at ≠ some key)
    (pre : List HistoryEntry) (e : HistoryEntry) (post : List HistoryEntry)
    (hpre : ∀ x ∈ pre, x.uploaded_at ≠ some key)
    (he : e.uploaded_at = some key) :
    update_history_entry key u h₂ = (false, h₂)
  ∧ (update_history_entry key u h₂).2 = h₂
  ∧ update_history_entry key u (pre ++ e :: post) =
      (true, pre ++ mergeEntry e u :: post) := by
  have h1 := update_history_entry_no_match key u h₂ hnone
  exact ⟨h1, by rw [h1], update_history_entry_first_match key u pre e post hpre he⟩

/-- A stored entry that carries the sample key. -/
def sampleEntry : HistoryEntry :=
  { HistoryEntry.empty with
      uploaded_at := some sampleKey
      status := some "uploading".data
      progress := some 0 }

/-- A stored entry with a different key. -/
def otherEntry : HistoryEntry :=
  { HistoryEntry.empty with uploaded_at := some "2024-12-31T00:00:00".data }

/-- Witness for C6 at concrete inputs. -/
theorem update_history_entry_spec_witness :
    (∀ x ∈ [otherEntry], x.uploaded_at ≠ some sampleKey)
  ∧ (∀ x ∈ ([] : List HistoryEntry), x.uploaded_at ≠ some sampleKey)
  ∧ sampleEntry.uploaded_at = some sampleKey
  ∧ (update_history_entry sampleKey { HistoryEntry.empty with progress := some 42 }
        [otherEntry] = (false, [otherEntry])
    ∧ (update_history_entry sampleKey
        { HistoryEntry.empty with progress := some 42 } [otherEntry]).2 = [otherEntry]
    ∧ update_history_entry sampleKey
        { HistoryEntry.empty with progress := some 42 }
        ([] ++ sampleEntry :: [otherEntry]) =
        (true, [] ++ mergeEntry sampleEntry
          { HistoryEntry.empty with progress := some 42 } :: [otherEntry])) :=
  ⟨by decide, by decide, by decide,
    update_history_entry_spec sampleKey
      { HistoryEntry.empty with progress := some 42 }
      [otherEntry] (by decide) [] sampleEntry [otherEntry] (by decide) (by decide)⟩

/-- C7: for every non-empty list of scheduled items the computed slot is the
local timestamp of an item with the maximum UTC publish timestamp plus
exactly one day; the wall-clock time of day is preserved (naive local-time
arithmetic: on the minute model, adding one day adds 1440 and leaves the
residue mod 1440 unchanged, so month, year and DST boundaries cannot shift
the time of day); and the result is the same for every permutation of the
input list. -/
theorem next_day_slot_spec (offset : Int) (raw : List (PyStr × Int))
    (hne : raw ≠ []) :
    ∃ best ∈ raw, (∀ it ∈ raw, it.2 ≤ best.2)
      ∧ calculate_next_day_slot offset raw =
          some (best.2 + offset + minutesPerDay)
      ∧ (best.2 + offset + minutesPerDay) % 1440 = (best.2 + offset) % 1440
      ∧ ∀ raw₂, raw.Perm raw₂ →
          calculate_next_day_slot offset raw₂ =
            calculate_next_day_slot offset raw := by
  obtain ⟨best, hmem, hbound, hcalc⟩ := calculate_next_day_slot_max offset raw hne
  refine ⟨best, hmem, hbound, hcalc, ?_, ?_⟩
  · simp only [minutesPerDay]
    omega
  · intro raw₂ hperm
    have hne₂ : raw₂ ≠ [] := by
      intro h
      rw [h] at hperm
      exact hne hperm.eq_nil
    obtain ⟨best₂, hmem₂, hbound₂, hcalc₂⟩ :=
      calculate_next_day_slot_max offset raw₂ hne₂
    have h12 : best₂.2 ≤ best.2 := hbound best₂ (hperm.mem_iff.mpr hmem₂)
    have h21 : best.2 ≤ best₂.2 := hbound₂ best (hperm.mem_iff.mp hmem)
    have : best₂.2 = best.2 := le_antisymm h12 h21
    rw [hcalc₂, hcalc, this]

/-- Concrete scheduled items for the C7 witness (arbitrary minute values,
offset of one hour). -/
def sampleRawSchedule : List (PyStr × Int) :=
  [("A".data, 29401740), ("B".data, 29407500)]

/-- Witness for C7 at concrete inputs. -/
theorem next_day_slot_spec_witness :
    sampleRawSchedule ≠ []
  ∧ (∃ best ∈ sampleRawSchedule, (∀ it ∈ sampleRawSchedule, it.2 ≤ best.2)
      ∧ calculate_next_day_slot 60 sampleRawSchedule =
          some (best.2 + 60 + minutesPerDay)
      ∧ (best.2 + 60 + minutesPerDay) % 1440 = (best.2 + 60) % 1440
      ∧ ∀ raw₂, sampleRawSchedule.Perm raw₂ →
          calculate_next_day_slot 60 raw₂ =
            calculate_next_day_slot 60 sampleRawSchedule) :=
  ⟨by decide, next_day_slot_spec 60 sampleRawSchedule (by decide)⟩

/-- C8: an input with an empty file path, a missing title, a title longer
than 100 characters, or (in scheduled mode) a scheduled time not in the
future fails validation, so _upload returns before any history entry is
written and before the worker session is started.  Path and title are the
stripped values the program itself uses; a scheduled time that does not even
parse is likewise rejected, which the universally quantified fourth
disjunct covers. -/
theorem validation_rejects (now : Int) (f : UploadForm)
    (hbad : pyStrip f.videoPath = [] ∨ pyStrip f.title = []
      ∨ 100 < (pyStrip f.title).length
      ∨ (f.privacy = "scheduled".data ∧
          ∀ dt, f.scheduledDt = some dt → dt ≤ now)) :
    validate_inputs now f = false ∧ upload_attempt now f = none := by
  have hval : validate_inputs now f = false := by
    rcases hbad with hpath | htitle | hlen | ⟨hpriv, hdt⟩
    · simp [validate_inputs, hpath]
    · simp [validate_inputs, htitle]
    · have hne : pyStrip f.title ≠ [] := by
        intro h
        rw [h] at hlen
        simp at hlen
      simp [validate_inputs, hne, hlen]
    · cases hsd : f.scheduledDt with
      | none => simp [validate_inputs, hpriv, hsd]
      | some dt => simp [validate_inputs, hpriv, hsd, hdt dt hsd]
  exact ⟨hval, by simp [upload_attempt, hval]⟩

/-- A form with an empty video path. -/
def emptyPathForm : UploadForm :=
  { videoPath := []
    pathExists := false
    suffixSupported := false
    title := "My Video".data
    description := []
    tags := []
    category := "Entertainment".data
    privacy := "private".data
    scheduledDt := none
    publicConfirmed := false }

/-- Witness for C8 at a concrete rejected input. -/
theorem validation_rejects_witness :
    (pyStrip emptyPathForm.videoPath = [] ∨ pyStrip emptyPathForm.title = []
      ∨ 100 < (pyStrip emptyPathForm.title).length
      ∨ (emptyPathForm.privacy = "scheduled".data ∧
          ∀ dt, emptyPathForm.scheduledDt = some dt → dt ≤ 0))
  ∧ (validate_inputs 0 emptyPathForm = false ∧ upload_attempt 0 emptyPathForm = none) :=
  ⟨Or.inl (by decide), validation_rejects 0 emptyPathForm (Or.inl (by decide))⟩

/-- A run state with the window at its initial value and one uploading
entry stored under the sample key. -/
def samplePollState : PollState :=
  { window := ProgressWindow.init, history := [sampleEntry] }

/-- C1 counterexample: in a run whose second poll reads a reported value
lower than the first (50 then 40), the polling side observes 50 and then 40;
the later observation is smaller than the earlier one and the lower value is
not clamped to the previous maximum — the claimed clamping does not exist in
update_progress or check_upload. -/
theorem progress_regression_counterexample :
    get_progress (check_upload_progress_step sampleKey 50 samplePollState).window = 50
  ∧ get_progress (check_upload_progress_step sampleKey 40
      (check_upload_progress_step sampleKey 50 samplePollState)).window = 40
  ∧ ¬ (get_progress (check_upload_progress_step sampleKey 50 samplePollState).window ≤
      get_progress (check_upload_progress_step sampleKey 40
        (check_upload_progress_step sampleKey 50 samplePollState)).window)
  ∧ get_progress (check_upload_progress_step sampleKey 40
      (check_upload_progress_step sampleKey 50 samplePollState)).window ≠ 50 := by
  decide

/-- C1 amended: the poll relays each positive reported value to the caller
unchanged (no clamping), so the observed progress sequence is non-decreasing
exactly when the values the advance primitive reports are non-decreasing;
under that protocol guarantee every pair of observations i < j satisfies
progress_i ≤ progress_j. -/
theorem observed_progress_monotone (key : PyStr) (reports : List ℚ)
    (s₀ : PollState) (h₀ : s₀.window.currentProgress = 0)
    (hmono : reports.Pairwise (· ≤ ·)) (hpos : ∀ r ∈ reports, 0 ≤ r) :
    (observedProgress key reports s₀).Pairwise (· ≤ ·)
  ∧ ∀ (p : ℚ) (w : ProgressWindow), (update_progress p w).currentProgress = p := by
  refine ⟨?_, fun p w => rfl⟩
  rw [observedProgress_eq_scanl, h₀]
  refine List.chain'_iff_pairwise.mp ?_
  refine chain_scanl_stepQ reports 0 hmono ?_
  intro r hr _
  exact hpos r hr

/-- Witness for the amended C1 at a concrete monotone run. -/
theorem observed_progress_monotone_witness :
    samplePollState.window.currentProgress = 0
  ∧ ([0, 30, 30, 75] : List ℚ).Pairwise (· ≤ ·)
  ∧ (∀ r ∈ ([0, 30, 30, 75] : List ℚ), 0 ≤ r)
  ∧ ((observedProgress sampleKey [0, 30, 30, 75] samplePollState).Pairwise (· ≤ ·)
    ∧ ∀ (p : ℚ) (w : ProgressWindow), (update_progress p w).currentProgress = p) :=
  ⟨by decide, by decide, by decide,
    observed_progress_monotone sampleKey [0, 30, 30, 75] samplePollState
      (by decide) (by decide) (by decide)⟩

/-- C9 counterexample: check_upload writes the history progress on every
poll whose reported value is positive, not only on increases — after a poll
reading 50, a poll reading the lower value 40 is not an increase, yet the
stored log changes (the entry now holds progress 40). -/
theorem history_update_on_decrease_counterexample :
    (40 : ℚ) < 50
  ∧ (check_upload_progress_step sampleKey 50 samplePollState).history =
      [mergeEntry sampleEntry { HistoryEntry.empty with progress := some (50 : ℚ) }]
  ∧ (check_upload_progress_step sampleKey 40
      (check_upload_progress_step sampleKey 50 samplePollState)).history ≠
      (check_upload_progress_step sampleKey 50 samplePollState).history := by
  decide

/-- C9 amended: on every poll whose reported value is positive the
controller merges progress = reported into the keyed history entry,
whether or not the value increased; the stored log is content-unchanged
exactly when the write is skipped (value not positive) or the merged value
equals the one already stored — so under the protocol's non-decreasing
reports the stored entry changes precisely on the polls where progress
increased. -/
theorem check_upload_history_write (key : PyStr) (s : PollState) (r : ℚ)
    (pre post : List HistoryEntry) (e : HistoryEntry)
    (hdec : s.history = pre ++ e :: post)
    (hpre : ∀ x ∈ pre, x.uploaded_at ≠ some key)
    (hk : e.uploaded_at = some key) (hr : 0 < r) :
    (check_upload_progress_step key r s).history =
      pre ++ mergeEntry e { HistoryEntry.empty with progress := some r } :: post
  ∧ (mergeEntry e { HistoryEntry.empty with progress := some r }).progress = some r
  ∧ (e.progress = some r →
      (check_upload_progress_step key r s).history = s.history)
  ∧ (∀ r₂ : ℚ, ¬ 0 < r₂ → check_upload_progress_step key r₂ s = s) := by
  have hwrite : (check_upload_progress_step key r s).history =
      pre ++ mergeEntry e { HistoryEntry.empty with progress := some r } :: post := by
    simp only [check_upload_progress_step, if_pos hr]
    rw [hdec, update_history_entry_first_match key _ pre e post hpre hk]
  refine ⟨hwrite, by simp [mergeEntry, orO], ?_, ?_⟩
  · intro hep
    rw [hwrite, mergeEntry_progress_self e r hep, hdec]
  · intro r₂ hr₂
    simp [check_upload_progress_step, hr₂]

/-- Witness for the amended C9 at concrete inputs. -/
theorem check_upload_history_write_witness :
    samplePollState.history = [] ++ sampleEntry :: []
  ∧ (∀ x ∈ ([] : List HistoryEntry), x.uploaded_at ≠ some sampleKey)
  ∧ sampleEntry.uploaded_at = some sampleKey
  ∧ (0 : ℚ) < 50
  ∧ ((check_upload_progress_step sampleKey 50 samplePollState).history =
      [] ++ mergeEntry sampleEntry
        { HistoryEntry.empty with progress := some (50 : ℚ) } :: []
    ∧ (mergeEntry sampleEntry
        { HistoryEntry.empty with progress := some (50 : ℚ) }).progress = some 50
    ∧ (sampleEntry.progress = some 50 →
        (check_upload_progress_step sampleKey 50 samplePollState).history =
          samplePollState.history)
    ∧ (∀ r₂ : ℚ, ¬ 0 < r₂ →
        check_upload_progress_step sampleKey r₂ samplePollState = samplePollState)) :=
  ⟨by decide, by decide, by decide, by decide,
    check_upload_history_write sampleKey samplePollState 50 [] [] sampleEntry
      (by decide) (by decide) (by decide) (by decide)⟩

/-- C2: when cancellation is handled with no video id in the upload state,
no progress ever reported, and a best-effort search that resolves nothing,
the outcome is a cancelled history record (status cancelled, progress 0), no
delete is attempted, and the caller is told no matching video was found. -/
theorem cancel_no_object (key : PyStr) (ctx : CancelCtx)
    (history : List HistoryEntry)
    (hvid : ctx.stateVideoId = none)
    (hsearch : find_partial_upload_video_id ctx.title ctx.description
      ctx.publishAt ctx.searchItems = none)
    (hprog : ctx.stateProgress = 0) :
    handle_cancelled key ctx history =
      ((update_history_entry key (cancelNoVideoUpdate 0) history).2,
        ⟨none, false,
          "Upload was cancelled. No matching video was found on YouTube to delete.".data⟩)
  ∧ (handle_cancelled key ctx history).2.deleteAttempted = false
  ∧ (handle_cancelled key ctx history).2.resolvedId = none
  ∧ (cancelNoVideoUpdate 0).status = some "cancelled".data := by
  have hmain : handle_cancelled key ctx history =
      ((update_history_entry key (cancelNoVideoUpdate 0) history).2,
        ⟨none, false,
          "Upload was cancelled. No matching video was found on YouTube to delete.".data⟩) := by
    simp [handle_cancelled, hvid, hsearch, hprog]
  exact ⟨hmain, by rw [hmain], by rw [hmain], rfl⟩

/-- A cancellation context in which nothing was ever uploaded: no id in the
state, no progress, and a search that finds nothing. -/
def freshCancelCtx : CancelCtx :=
  { stateVideoId := none
    stateProgress := 0
    title := "My Video".data
    description := "d".data
    publishAt := none
    searchItems := []
    deleteFails := none }

/-- Witness for C2 at concrete inputs. -/
theorem cancel_no_object_witness :
    freshCancelCtx.stateVideoId = none
  ∧ find_partial_upload_video_id freshCancelCtx.title freshCancelCtx.description
      freshCancelCtx.publishAt freshCancelCtx.searchItems = none
  ∧ freshCancelCtx.stateProgress = 0
  ∧ (handle_cancelled sampleKey freshCancelCtx [sampleEntry] =
      ((update_history_entry sampleKey (cancelNoVideoUpdate 0) [sampleEntry]).2,
        ⟨none, false,
          "Upload was cancelled. No matching video was found on YouTube to delete.".data⟩)
    ∧ (handle_cancelled sampleKey freshCancelCtx [sampleEntry]).2.deleteAttempted = false
    ∧ (handle_cancelled sampleKey freshCancelCtx [sampleEntry]).2.resolvedId = none
    ∧ (cancelNoVideoUpdate 0).status = some "cancelled".data) :=
  ⟨by decide, by decide, by decide,
    cancel_no_object sampleKey freshCancelCtx [sampleEntry]
      (by decide) (by decide) (by decide)⟩

/-- C3: when an id was resolved from the upload state but the delete call
fails, the first stored entry under the key is merged with status cancelled,
the resolved id, and the failed-delete warning note; the status written is
cancelled, never failed, so the outcome classification is unchanged. -/
theorem cancel_delete_failed (key : PyStr) (ctx : CancelCtx)
    (v err : PyStr)
    (hvid : ctx.stateVideoId = some v)
    (hdel : ctx.deleteFails = some err)
    (pre post : List HistoryEntry) (e : HistoryEntry)
    (hpre : ∀ x ∈ pre, x.uploaded_at ≠ some key)
    (hk : e.uploaded_at = some key) :
    handle_cancelled key ctx (pre ++ e :: post) =
      (pre ++ mergeEntry e (cancelDeleteFailedUpdate ctx.stateProgress v err) :: post,
        ⟨some v, true,
          "Upload was cancelled but failed to delete video from YouTube.".data⟩)
  ∧ (mergeEntry e (cancelDeleteFailedUpdate ctx.stateProgress v err)).status =
      some "cancelled".data
  ∧ (mergeEntry e (cancelDeleteFailedUpdate ctx.stateProgress v err)).video_id = some v
  ∧ (mergeEntry e (cancelDeleteFailedUpdate ctx.stateProgress v err)).note =
      some ("Failed to delete video: ".data ++ err)
  ∧ (mergeEntry e (cancelDeleteFailedUpdate ctx.stateProgress v err)).status ≠
      some "failed".data := by
  refine ⟨?_, ?_, ?_, ?_, ?_⟩
  · simp only [handle_cancelled, hvid, hdel]
    rw [update_history_entry_first_match key _ pre e post hpre hk]
  · simp [mergeEntry, orO, cancelDeleteFailedUpdate, HistoryEntry.empty]
  · simp [mergeEntry, orO, cancelDeleteFailedUpdate, HistoryEntry.empty]
  · simp [mergeEntry, orO, cancelDeleteFailedUpdate, HistoryEntry.empty]
  · simp only [mergeEntry, orO, cancelDeleteFailedUpdate, HistoryEntry.empty]
    intro h
    have := Option.some_inj.mp h
    have hne : "cancelled".data ≠ "failed".data := by decide
    exact hne this

/-- A cancellation context holding a resolved id whose delete raises. -/
def failingDeleteCtx : CancelCtx :=
  { stateVideoId := some "abc123".data
    stateProgress := 37
    title := "My Video".data
    description := "d".data
    publishAt := none
    searchItems := []
    deleteFails := some "quota exceeded".data }

/-- Witness for C3 at concrete inputs. -/
theorem cancel_delete_failed_witness :
    failingDeleteCtx.stateVideoId = some "abc123".data
  ∧ failingDeleteCtx.deleteFails = some "quota exceeded".data
  ∧ (∀ x ∈ ([] : List HistoryEntry), x.uploaded_at ≠ some sampleKey)
  ∧ sampleEntry.uploaded_at = some sampleKey
  ∧ (handle_cancelled sampleKey failingDeleteCtx ([] ++ sampleEntry :: []) =
      ([] ++ mergeEntry sampleEntry
          (cancelDeleteFailedUpdate failingDeleteCtx.stateProgress "abc123".data
            "quota exceeded".data) :: [],
        ⟨some "abc123".data, true,
          "Upload was cancelled but failed to delete video from YouTube.".data⟩)
    ∧ (mergeEntry sampleEntry
        (cancelDeleteFailedUpdate failingDeleteCtx.stateProgress "abc123".data
          "quota exceeded".data)).status = some "cancelled".data
    ∧ (mergeEntry sampleEntry
        (cancelDeleteFailedUpdate failingDeleteCtx.stateProgress "abc123".data
          "quota exceeded".data)).video_id = some "abc123".data
    ∧ (mergeEntry sampleEntry
        (cancelDeleteFailedUpdate failingDeleteCtx.stateProgress "abc123".data
          "quota exceeded".data)).note =
        some ("Failed to delete video: ".data ++ "quota exceeded".data)
    ∧ (mergeEntry sampleEntry
        (cancelDeleteFailedUpdate failingDeleteCtx.stateProgress "abc123".data
          "quota exceeded".data)).status ≠ some "failed".data) :=
  ⟨by decide, by decide, by decide, by decide,
    cancel_delete_failed sampleKey failingDeleteCtx "abc123".data
      "quota exceeded".data (by decide) (by decide) [] [] sampleEntry
      (by decide) (by decide)⟩

/-- C4: the search returns a candidate id only when that candidate's title
equals the requested title exactly, its stored description starts with the
first 100 characters of the requested description (a longer stored
description still matches; an empty requested description is trivially a
prefix), and, whenever a non-empty expected publish timestamp is supplied,
the stored publish timestamp agrees with it after .000Z normalization.
The well-formedness hypothesis states that search results never carry an
empty-string video id (YouTube ids are non-empty; the code tests the id by
truthiness). -/
theorem find_partial_upload_only_if (title desc : PyStr) (pa : Option PyStr)
    (items : List SearchItem) (vid : PyStr)
    (hwf : ∀ it ∈ items, it.videoId ≠ some [])
    (hfind : find_partial_upload_video_id title desc pa items = some vid) :
    ∃ it ∈ items, it.videoId = some vid ∧ it.title = title
      ∧ pyStartsWith it.description (desc.take 100) = true
      ∧ ∀ p, pa = some p → p ≠ [] →
          normalizePublishAt p = normalizePublishAt it.storedPublishAt := by
  induction items with
  | nil => exact absurd hfind (by simp [find_partial_upload_video_id])
  | cons item rest ih =>
    have hwf' : ∀ it ∈ rest, it.videoId ≠ some [] := by
      intro it h
      exact hwf it (by simp [h])
    have hwfi : item.videoId ≠ some [] := hwf item (by simp)
    rw [find_partial_upload_video_id] at hfind
    by_cases h1 : item.title ≠ title
    · rw [if_pos h1] at hfind
      obtain ⟨it, hmem, hrest⟩ := ih hwf' hfind
      exact ⟨it, by simp [hmem], hrest⟩
    · rw [if_neg h1] at hfind
      push_neg at h1
      by_cases h2 : desc ≠ [] ∧ ¬ pyStartsWith item.description (desc.take 100)
      · rw [if_pos h2] at hfind
        obtain ⟨it, hmem, hrest⟩ := ih hwf' hfind
        exact ⟨it, by simp [hmem], hrest⟩
      · rw [if_neg h2] at hfind
        have hsw : pyStartsWith item.description (desc.take 100) = true := by
          by_cases hd : desc = []
          · subst hd
            simp [pyStartsWith]
          · push_neg at h2
            simpa using h2 hd
        by_cases h3 : pyTruthyOpt pa ∧ pyTruthyOpt item.videoId
        · by_cases h4 : normalizePublishAt (pa.getD []) ≠
              normalizePublishAt item.storedPublishAt
          · rw [if_pos h3, if_pos h4] at hfind
            obtain ⟨it, hmem, hrest⟩ := ih hwf' hfind
            exact ⟨it, by simp [hmem], hrest⟩
          · rw [if_pos h3, if_neg h4] at hfind
            push_neg at h4
            refine ⟨item, by simp, hfind, h1, hsw, ?_⟩
            intro p hp _
            rw [hp] at h4
            simpa using h4
        · rw [if_neg h3] at hfind
          refine ⟨item, by simp, hfind, h1, hsw, ?_⟩
          intro p hp hpne
          exfalso
          apply h3
          constructor
          · rw [hp]
            simpa [pyTruthyOpt] using hpne
          · rw [hfind] at hwfi ⊢
            have hvne : vid ≠ [] := by
              intro hv
              exact hwfi (by rw [hv])
            simpa [pyTruthyOpt] using hvne

/-- A concrete search result list for the C4 witness. -/
def sampleSearchItems : List SearchItem :=
  [⟨"Other title".data, "x".data, some "zzz".data, "".data⟩,
    ⟨"My Video".data, "a description that goes on".data, some "abc123".data,
      "2025-01-01T12:00:00Z".data⟩]

/-- Witness for C4 at concrete inputs. -/
theorem find_partial_upload_only_if_witness :
    (∀ it ∈ sampleSearchItems, it.videoId ≠ some [])
  ∧ find_partial_upload_video_id "My Video".data "a descr".data
      (some "2025-01-01T12:00:00.000Z".data) sampleSearchItems = some "abc123".data
  ∧ (∃ it ∈ sampleSearchItems, it.videoId = some "abc123".data
      ∧ it.title = "My Video".data
      ∧ pyStartsWith it.description ("a descr".data.take 100) = true
      ∧ ∀ p, (some "2025-01-01T12:00:00.000Z".data : Option PyStr) = some p →
          p ≠ [] → normalizePublishAt p = normalizePublishAt it.storedPublishAt) :=
  ⟨by decide, by decide,
    find_partial_upload_only_if "My Video".data "a descr".data
      (some "2025-01-01T12:00:00.000Z".data) sampleSearchItems "abc123".data
      (by decide) (by decide)⟩

/-- C10: with an empty requested description the description condition is
skipped entirely — a candidate whose title equals the requested title
exactly is matched whatever its stored description is, provided the stored
publish timestamp agrees whenever a non-empty expected one is given. -/
theorem find_empty_desc_matches (title d pub : PyStr) (pa : Option PyStr)
    (v : PyStr) (rest : List SearchItem)
    (hp : ∀ p, pa = some p → p ≠ [] →
      normalizePublishAt p = normalizePublishAt pub) :
    find_partial_upload_video_id title [] pa
      (⟨title, d, some v, pub⟩ :: rest) = some v := by
  rw [find_partial_upload_video_id]
  rw [if_neg (by simp)]
  rw [if_neg (by simp)]
  by_cases h3 : pyTruthyOpt pa ∧ pyTruthyOpt (SearchItem.videoId ⟨title, d, some v, pub⟩)
  · rw [if_pos h3]
    have hpa : ∃ p, pa = some p ∧ p ≠ [] := by
      rcases h3 with ⟨hpt, _⟩
      cases hq : pa with
      | none => rw [hq] at hpt; simp [pyTruthyOpt] at hpt
      | some p =>
        rw [hq] at hpt
        refine ⟨p, rfl, ?_⟩
        simpa [pyTruthyOpt] using hpt
    obtain ⟨p, hq, hpne⟩ := hpa
    have heq : normalizePublishAt (pa.getD []) = normalizePublishAt pub := by
      rw [hq]
      exact hp p hq hpne
    rw [if_neg (not_ne_iff.mpr heq)]
  · rw [if_neg h3]

/-- Witness for C10 at concrete inputs: empty requested description, a
stored description unrelated to the request, a matching title and a
matching normalized publish timestamp. -/
theorem find_empty_desc_matches_witness :
    (∀ p, (some "2025-01-01T12:00:00.000Z".data : Option PyStr) = some p →
      p ≠ [] → normalizePublishAt p =
        normalizePublishAt "2025-01-01T12:00:00Z".data)
  ∧ find_partial_upload_video_id "My Video".data []
      (some "2025-01-01T12:00:00.000Z".data)
      (⟨"My Video".data, "completely unrelated stored text".data,
        some "abc123".data, "2025-01-01T12:00:00Z".data⟩ :: []) =
      some "abc123".data :=
  ⟨fun p hp _ => by cases hp; decide,
    find_empty_desc_matches "My Video".data
      "completely unrelated stored text".data "2025-01-01T12:00:00Z".data
      (some "2025-01-01T12:00:00.000Z".data) "abc123".data []
      (fun p hp _ => by cases hp; decide)⟩


end YtUploader
